import Mathlib

/-!
Verification of the piewin interaction/render core (src/main.c).

The C program's `double` arithmetic is modelled over `ℝ` (exact real
arithmetic); machine `int` values are modelled as `ℤ`.  The font-fitting
binary search only uses field operations and comparisons, so it is stated
over `ℚ` to keep it executable.  The event loop of `main` is modelled as a
step function on an explicit state record; the C variables `running` and
`exit_code` are encoded by the `Phase` inductive (`Running` ↔ `running = 1`;
`Selected idx` ↔ `running = 0 ∧ exit_code = 0`, with `idx` the index whose
label was printed; `Cancelled` ↔ `running = 0 ∧ exit_code = 1`).
-/

namespace Piewin

open Real

/-- C's `atan2(y, x)`: the four-quadrant arctangent, i.e. the argument of the
complex number `x + i·y`, in `(-π, π]` (and `0` at the origin). -/
noncomputable def atan2 (y x : ℝ) : ℝ := Complex.arg ⟨x, y⟩

/-- `sector_index_from_point` (src/main.c:165-176): map a pointer position to a
wedge index.  Returns `-1` when `n ≤ 0`; otherwise computes the angle of the
vector from the canvas center, normalizes it into `[0, 2π)`, divides by the
wedge width `2π/n`, floors, and clamps into `[0, n-1]`. -/
noncomputable def sector_index_from_point (n W H x y : ℤ) : ℤ :=
  if n ≤ 0 then -1 else
    let cx : ℝ := (W : ℝ) * 0.5
    let cy : ℝ := (H : ℝ) * 0.5
    let ang0 : ℝ := atan2 ((y : ℝ) - cy) ((x : ℝ) - cx)
    let ang : ℝ := if ang0 < 0 then ang0 + 2 * π else ang0
    let step : ℝ := (2 * π) / (n : ℝ)
    let idx : ℤ := ⌊ang / step⌋
    let idx1 : ℤ := if idx < 0 then 0 else idx
    if idx1 ≥ n then n - 1 else idx1

/-- C's `fmin(a, b)` where `a` may be `INFINITY`, modelled as `none`. -/
def fminO : Option ℝ → ℝ → ℝ
  | none, t => t
  | some a, t => min a t

/-- Minimum of two possibly-infinite (`none`) values, `none` meaning `INFINITY`:
models `fmin(tx, ty)` at src/main.c:160. -/
def ominO : Option ℝ → Option ℝ → Option ℝ
  | none, b => b
  | some a, none => some a
  | some a, some b => some (min a b)

/-- One axis block of `distance_to_rect_edge` (src/main.c:144-159): candidate
ray parameters for crossing the two canvas edges perpendicular to this axis
(at coordinates `0` and `A`), keeping the cross coordinate within `[0, B]`.
`none` models C's `INFINITY` (no accepted candidate); the `1e-9` guard is the
source's near-parallel cutoff. -/
noncomputable def axisCand (A B : ℤ) (ca cb da db : ℝ) : Option ℝ :=
  if 1e-9 < |da| then
    let t1 : ℝ := (0 - ca) / da
    let w1 : ℝ := cb + t1 * db
    let o1 : Option ℝ := if 0 < t1 ∧ 0 ≤ w1 ∧ w1 ≤ (B : ℝ) then some t1 else none
    let t2 : ℝ := ((A : ℝ) - ca) / da
    let w2 : ℝ := cb + t2 * db
    if 0 < t2 ∧ 0 ≤ w2 ∧ w2 ≤ (B : ℝ) then some (fminO o1 t2) else o1
  else none

/-- `distance_to_rect_edge` (src/main.c:140-163): distance along the ray from
`(cx, cy)` at angle `ang` to the first accepted crossing of a canvas edge,
with the defensive floor `0` when no finite positive crossing is accepted
(`!isfinite(t) || t <= 0` in the source). -/
noncomputable def distance_to_rect_edge (W H : ℤ) (cx cy ang : ℝ) : ℝ :=
  let dx : ℝ := Real.cos ang
  let dy : ℝ := Real.sin ang
  match ominO (axisCand W H cx cy dx dy) (axisCand H W cy cx dy dx) with
  | none => 0
  | some t => if t ≤ 0 then 0 else t

/-- The inner loop of `fit_font_size` (src/main.c:183-193), with the iteration
count as explicit fuel.  `measure` abstracts `cairo_text_extents` for the fixed
text: it maps a trial font size to the measured `(width, height)`; the C `mid`
is `(lo + hi) * (1 / 2)`. -/
def fit_font_size_loop (measure : ℚ → ℚ × ℚ) (maxw maxh : ℚ) :
    ℕ → ℚ → ℚ → ℚ
  | 0, lo, _ => lo
  | it + 1, lo, hi =>
    if (measure ((lo + hi) * (1 / 2))).1 ≤ maxw ∧
        (measure ((lo + hi) * (1 / 2))).2 ≤ maxh then
      fit_font_size_loop measure maxw maxh it ((lo + hi) * (1 / 2)) hi
    else
      fit_font_size_loop measure maxw maxh it lo ((lo + hi) * (1 / 2))

/-- `fit_font_size` (src/main.c:178-195): 20-step binary search for the largest
font size whose measured extents fit into `(maxw, maxh)`, over
`[1, max 1 (min maxw maxh)]`; returns the final lower bound `lo`. -/
def fit_font_size (measure : ℚ → ℚ × ℚ) (maxw maxh : ℚ) : ℚ :=
  fit_font_size_loop measure maxw maxh 20 1 (max 1 (min maxw maxh))

/-! ## Interaction state machine (the event loop of `main`, src/main.c:522-619) -/

/-- Session phase, encoding the C variables `running` and `exit_code`:
`Running` ↔ `running = 1`; `Selected idx` ↔ `running = 0 ∧ exit_code = 0`
where `idx` is the wedge whose label was printed; `Cancelled` ↔
`running = 0 ∧ exit_code = 1`. -/
inductive Phase
  | Running
  | Selected (idx : ℤ)
  | Cancelled
  deriving DecidableEq, Repr

/-- The fixed per-session configuration: the entry labels read from stdin
(src/main.c:419-451) and the two atoms used to recognize a window-close
client message (src/main.c:609). -/
structure Config where
  entries : List String
  wmProtocols : ℤ
  wmDeleteWindow : ℤ

/-- The mutable state of the event loop: canvas size (`app.width/height`),
`hover_idx`, `pressed_idx`, the phase, the chunks written to stdout, and the
number of `draw` calls made so far. -/
structure AppState where
  width : ℤ
  height : ℤ
  hover_idx : ℤ
  pressed_idx : ℤ
  phase : Phase
  output : List String
  renders : ℕ
  deriving DecidableEq, Repr

/-- The event stream, one constructor per arm of the switch at
src/main.c:526-617.  `KeyPress` carries the keysym already looked up from the
keycode; `ClientMessage` carries the message type atom and `data32[0]`;
`Other` is the `default: break` arm. -/
inductive Event
  | Expose
  | MotionNotify (x y : ℤ)
  | ButtonPress (detail x y : ℤ)
  | ButtonRelease (detail x y : ℤ)
  | KeyPress (sym : ℤ)
  | ConfigureNotify (w h : ℤ)
  | ClientMessage (mtype data0 : ℤ)
  | Other
  deriving DecidableEq, Repr

/-- `XK_Escape` (src/main.c:28). -/
def XK_Escape : ℤ := 0xff1b

/-- Process one event (one iteration of the `while (running)` loop,
src/main.c:522-619).  The loop exits as soon as `running` becomes `0`, so an
event arriving after a terminal phase is never processed; this is modelled by
returning the state unchanged when the phase is not `Running`. -/
noncomputable def step (cfg : Config) (s : AppState) (e : Event) : AppState :=
  if s.phase ≠ Phase.Running then s else
    let n : ℤ := (cfg.entries.length : ℤ)
    match e with
    | .Expose => { s with renders := s.renders + 1 }
    | .MotionNotify x y =>
      let idx : ℤ := sector_index_from_point n s.width s.height x y
      if idx ≠ s.hover_idx then
        { s with hover_idx := idx, renders := s.renders + 1 }
      else s
    | .ButtonPress detail x y =>
      if detail = 1 then
        { s with pressed_idx := sector_index_from_point n s.width s.height x y }
      else s
    | .ButtonRelease detail x y =>
      -- src/main.c:561-571, then `pressed_idx = -1` unconditionally at :573
      let s1 : AppState :=
        if detail = 1 then
          let idx : ℤ := sector_index_from_point n s.width s.height x y
          if 0 ≤ idx ∧ idx < n then
            { s with phase := Phase.Selected idx,
                     output := s.output ++ [cfg.entries.getD idx.toNat "" ++ "\n"] }
          else s
        else s
      { s1 with pressed_idx := -1 }
    | .KeyPress sym =>
      if sym = XK_Escape ∨ sym = 113 ∨ sym = 81 then
        { s with phase := Phase.Cancelled }
      else s
    | .ConfigureNotify w h =>
      if w ≠ s.width ∨ h ≠ s.height then
        { s with width := w, height := h, renders := s.renders + 1 }
      else s
    | .ClientMessage mtype data0 =>
      if mtype = cfg.wmProtocols ∧ data0 = cfg.wmDeleteWindow then
        { s with phase := Phase.Cancelled }
      else s
    | .Other => s

/-- Process a list of events in order. -/
noncomputable def steps (cfg : Config) (s : AppState) : List Event → AppState
  | [] => s
  | e :: es => steps cfg (step cfg s e) es

/-- The exit status of the process as a function of the final phase
(`exit_code` starts at `1` and is set to `0` exactly on selection,
src/main.c:519 and :569). -/
def exit_code : Phase → ℤ
  | .Selected _ => 0
  | _ => 1

/-- The three-entry example session configuration from the spec. -/
def cfg3 : Config :=
  { entries := ["One", "Two", "Three"], wmProtocols := 1, wmDeleteWindow := 2 }

/-- The state right after the initial draw (src/main.c:514-517):
`hover_idx = -1`, `pressed_idx = -1`, still running, nothing printed, and one
`draw` call made. -/
def init_state (W H : ℤ) : AppState :=
  { width := W, height := H, hover_idx := -1, pressed_idx := -1,
    phase := Phase.Running, output := [], renders := 1 }

/-! ## Theorems

### C4 — `fit_font_size` (font-fit search)

Step lemmas for evaluating one iteration of the binary search, an invariant
lemma (the lower bound always fits once it fits), and two fully evaluated
runs on a monotone step measurement used to refute the monotone-growth part
of the spec claim. -/

/-- Unfold one iteration of the search when the midpoint fits. -/
theorem fit_loop_yes (measure : ℚ → ℚ × ℚ) (maxw maxh : ℚ) (it : ℕ) (lo hi mid : ℚ)
    (hmid : (lo + hi) * (1 / 2) = mid)
    (h : (measure mid).1 ≤ maxw ∧ (measure mid).2 ≤ maxh) :
    fit_font_size_loop measure maxw maxh (it + 1) lo hi =
      fit_font_size_loop measure maxw maxh it mid hi := by
  subst hmid
  rw [fit_font_size_loop, if_pos h]

/-- Unfold one iteration of the search when the midpoint does not fit. -/
theorem fit_loop_no (measure : ℚ → ℚ × ℚ) (maxw maxh : ℚ) (it : ℕ) (lo hi mid : ℚ)
    (hmid : (lo + hi) * (1 / 2) = mid)
    (h : ¬ ((measure mid).1 ≤ maxw ∧ (measure mid).2 ≤ maxh)) :
    fit_font_size_loop measure maxw maxh (it + 1) lo hi =
      fit_font_size_loop measure maxw maxh it lo mid := by
  subst hmid
  rw [fit_font_size_loop, if_neg h]

/-- A monotone measurement whose extents jump from `(1,1)` to `(10^6,10^6)`
at font size `5` (a text that becomes unrenderably wide past size 5). -/
def mstep (s : ℚ) : ℚ × ℚ := if s ≤ 5 then (1, 1) else (1000000, 1000000)

/-- A monotone measurement whose extents equal the font size. -/
def msquare (s : ℚ) : ℚ × ℚ := (s, s)

/-- `mstep` is non-decreasing in the font size (the claim's hypothesis on
measurement functions). -/
theorem mstep_monotone : Monotone mstep := by
  intro a b hab
  unfold mstep
  split_ifs with h1 h2 h2
  · exact le_refl _
  · exact ⟨by norm_num, by norm_num⟩
  · exact absurd (le_trans hab h2) h1
  · exact le_refl _

/-- `msquare` is non-decreasing in the font size. -/
theorem msquare_monotone : Monotone msquare := fun _ _ hab => ⟨hab, hab⟩

theorem fit_mstep_100 :
    fit_font_size mstep 100 100 = 2621405 / 524288 := by
  rw [fit_font_size, show max (1:ℚ) (min (100:ℚ) 100) = 100 by norm_num]
  rw [fit_loop_no mstep 100 100 19 (1) (100) (101 / 2) (by norm_num) (by norm_num [mstep])]
  rw [fit_loop_no mstep 100 100 18 (1) (101 / 2) (103 / 4) (by norm_num) (by norm_num [mstep])]
  rw [fit_loop_no mstep 100 100 17 (1) (103 / 4) (107 / 8) (by norm_num) (by norm_num [mstep])]
  rw [fit_loop_no mstep 100 100 16 (1) (107 / 8) (115 / 16) (by norm_num) (by norm_num [mstep])]
  rw [fit_loop_yes mstep 100 100 15 (1) (115 / 16) (131 / 32) (by norm_num) (by norm_num [mstep])]
  rw [fit_loop_no mstep 100 100 14 (131 / 32) (115 / 16) (361 / 64) (by norm_num) (by norm_num [mstep])]
  rw [fit_loop_yes mstep 100 100 13 (131 / 32) (361 / 64) (623 / 128) (by norm_num) (by norm_num [mstep])]
  rw [fit_loop_no mstep 100 100 12 (623 / 128) (361 / 64) (1345 / 256) (by norm_num) (by norm_num [mstep])]
  rw [fit_loop_no mstep 100 100 11 (623 / 128) (1345 / 256) (2591 / 512) (by norm_num) (by norm_num [mstep])]
  rw [fit_loop_yes mstep 100 100 10 (623 / 128) (2591 / 512) (5083 / 1024) (by norm_num) (by norm_num [mstep])]
  rw [fit_loop_no mstep 100 100 9 (5083 / 1024) (2591 / 512) (10265 / 2048) (by norm_num) (by norm_num [mstep])]
  rw [fit_loop_yes mstep 100 100 8 (5083 / 1024) (10265 / 2048) (20431 / 4096) (by norm_num) (by norm_num [mstep])]
  rw [fit_loop_no mstep 100 100 7 (20431 / 4096) (10265 / 2048) (40961 / 8192) (by norm_num) (by norm_num [mstep])]
  rw [fit_loop_yes mstep 100 100 6 (20431 / 4096) (40961 / 8192) (81823 / 16384) (by norm_num) (by norm_num [mstep])]
  rw [fit_loop_yes mstep 100 100 5 (81823 / 16384) (40961 / 8192) (163745 / 32768) (by norm_num) (by norm_num [mstep])]
  rw [fit_loop_yes mstep 100 100 4 (163745 / 32768) (40961 / 8192) (327589 / 65536) (by norm_num) (by norm_num [mstep])]
  rw [fit_loop_yes mstep 100 100 3 (327589 / 65536) (40961 / 8192) (655277 / 131072) (by norm_num) (by norm_num [mstep])]
  rw [fit_loop_yes mstep 100 100 2 (655277 / 131072) (40961 / 8192) (1310653 / 262144) (by norm_num) (by norm_num [mstep])]
  rw [fit_loop_yes mstep 100 100 1 (1310653 / 262144) (40961 / 8192) (2621405 / 524288) (by norm_num) (by norm_num [mstep])]
  rw [fit_loop_no mstep 100 100 0 (2621405 / 524288) (40961 / 8192) (5242909 / 1048576) (by norm_num) (by norm_num [mstep])]
  rw [fit_font_size_loop]

theorem fit_mstep_200 :
    fit_font_size mstep 200 200 = 1310675 / 262144 := by
  rw [fit_font_size, show max (1:ℚ) (min (200:ℚ) 200) = 200 by norm_num]
  rw [fit_loop_no mstep 200 200 19 (1) (200) (201 / 2) (by norm_num) (by norm_num [mstep])]
  rw [fit_loop_no mstep 200 200 18 (1) (201 / 2) (203 / 4) (by norm_num) (by norm_num [mstep])]
  rw [fit_loop_no mstep 200 200 17 (1) (203 / 4) (207 / 8) (by norm_num) (by norm_num [mstep])]
  rw [fit_loop_no mstep 200 200 16 (1) (207 / 8) (215 / 16) (by norm_num) (by norm_num [mstep])]
  rw [fit_loop_no mstep 200 200 15 (1) (215 / 16) (231 / 32) (by norm_num) (by norm_num [mstep])]
  rw [fit_loop_yes mstep 200 200 14 (1) (231 / 32) (263 / 64) (by norm_num) (by norm_num [mstep])]
  rw [fit_loop_no mstep 200 200 13 (263 / 64) (231 / 32) (725 / 128) (by norm_num) (by norm_num [mstep])]
  rw [fit_loop_yes mstep 200 200 12 (263 / 64) (725 / 128) (1251 / 256) (by norm_num) (by norm_num [mstep])]
  rw [fit_loop_no mstep 200 200 11 (1251 / 256) (725 / 128) (2701 / 512) (by norm_num) (by norm_num [mstep])]
  rw [fit_loop_no mstep 200 200 10 (1251 / 256) (2701 / 512) (5203 / 1024) (by norm_num) (by norm_num [mstep])]
  rw [fit_loop_yes mstep 200 200 9 (1251 / 256) (5203 / 1024) (10207 / 2048) (by norm_num) (by norm_num [mstep])]
  rw [fit_loop_no mstep 200 200 8 (10207 / 2048) (5203 / 1024) (20613 / 4096) (by norm_num) (by norm_num [mstep])]
  rw [fit_loop_no mstep 200 200 7 (10207 / 2048) (20613 / 4096) (41027 / 8192) (by norm_num) (by norm_num [mstep])]
  rw [fit_loop_yes mstep 200 200 6 (10207 / 2048) (41027 / 8192) (81855 / 16384) (by norm_num) (by norm_num [mstep])]
  rw [fit_loop_no mstep 200 200 5 (81855 / 16384) (41027 / 8192) (163909 / 32768) (by norm_num) (by norm_num [mstep])]
  rw [fit_loop_yes mstep 200 200 4 (81855 / 16384) (163909 / 32768) (327619 / 65536) (by norm_num) (by norm_num [mstep])]
  rw [fit_loop_no mstep 200 200 3 (327619 / 65536) (163909 / 32768) (655437 / 131072) (by norm_num) (by norm_num [mstep])]
  rw [fit_loop_yes mstep 200 200 2 (327619 / 65536) (655437 / 131072) (1310675 / 262144) (by norm_num) (by norm_num [mstep])]
  rw [fit_loop_no mstep 200 200 1 (1310675 / 262144) (655437 / 131072) (2621549 / 524288) (by norm_num) (by norm_num [mstep])]
  rw [fit_loop_no mstep 200 200 0 (1310675 / 262144) (2621549 / 524288) (5242899 / 1048576) (by norm_num) (by norm_num [mstep])]
  rw [fit_font_size_loop]

/-- In a degenerate box the search interval is `[1, 1]` and every midpoint is
`1`, which never fits in `(1/2, 1/2)`, so the search returns the floor `1`. -/
theorem fit_msquare_loop_half : ∀ it : ℕ,
    fit_font_size_loop msquare (1 / 2) (1 / 2) it 1 1 = 1
  | 0 => by rw [fit_font_size_loop]
  | it + 1 => by
    rw [fit_loop_no msquare (1 / 2) (1 / 2) it 1 1 1 (by norm_num)
        (by norm_num [msquare])]
    exact fit_msquare_loop_half it

/-- On the box `(1/2, 1/2)` the returned size is the floor `1`. -/
theorem fit_msquare_half : fit_font_size msquare (1 / 2) (1 / 2) = 1 := by
  rw [fit_font_size, show max (1:ℚ) (min ((1:ℚ) / 2) ((1:ℚ) / 2)) = 1 by norm_num]
  exact fit_msquare_loop_half 20

/-- The final lower bound of the search fits whenever the running lower bound
fits; no monotonicity of the measurement is needed. -/
theorem fit_loop_fits (measure : ℚ → ℚ × ℚ) (maxw maxh : ℚ) : ∀ (it : ℕ) (lo hi : ℚ),
    (measure lo).1 ≤ maxw → (measure lo).2 ≤ maxh →
    (measure (fit_font_size_loop measure maxw maxh it lo hi)).1 ≤ maxw ∧
      (measure (fit_font_size_loop measure maxw maxh it lo hi)).2 ≤ maxh
  | 0, lo, _, h1, h2 => by
    rw [fit_font_size_loop]
    exact ⟨h1, h2⟩
  | it + 1, lo, hi, h1, h2 => by
    rw [fit_font_size_loop]
    split_ifs with h
    · exact fit_loop_fits measure maxw maxh it _ hi h.1 h.2
    · exact fit_loop_fits measure maxw maxh it lo _ h1 h2

/-- C4 (counterexample): the claim fails as stated.  First, with the monotone
measurement `mstep` and the box scaled up from `(100,100)` to `(200,200)` the
returned size strictly *decreases* (the binary-search grid depends on the
box), refuting strict growth under box scaling.  Second, with the monotone
measurement `msquare` and the box `(1/2, 1/2)` the returned size `1` does not
fit, refuting the unconditional fit guarantee. -/
theorem fit_font_size_claim_false :
    fit_font_size mstep 200 200 < fit_font_size mstep 100 100 ∧
    ¬ ((msquare (fit_font_size msquare (1 / 2) (1 / 2))).1 ≤ 1 / 2 ∧
       (msquare (fit_font_size msquare (1 / 2) (1 / 2))).2 ≤ 1 / 2) := by
  constructor
  · rw [fit_mstep_100, fit_mstep_200]
    norm_num
  · rw [fit_msquare_half]
    norm_num [msquare]

/-- C4 (amended): whenever the measured extents at the minimum trial size `1`
already fit in the box, `fit_font_size` returns a size whose measured extents
fit within `(maxw, maxh)` — no monotonicity of the measurement is required.
(When even size `1` overflows, the defensive floor `1` is returned and need
not fit, and the returned size need not grow when the box is scaled up.) -/
theorem fit_font_size_fits (measure : ℚ → ℚ × ℚ) (maxw maxh : ℚ)
    (h1 : (measure 1).1 ≤ maxw) (h2 : (measure 1).2 ≤ maxh) :
    (measure (fit_font_size measure maxw maxh)).1 ≤ maxw ∧
      (measure (fit_font_size measure maxw maxh)).2 ≤ maxh := by
  rw [fit_font_size]
  exact fit_loop_fits measure maxw maxh 20 1 _ h1 h2

/-- C4 (witness): the amended theorem applied to `msquare` on the box
`(10, 10)`, where size-1 text fits. -/
theorem fit_font_size_fits_witness :
    (msquare (fit_font_size msquare 10 10)).1 ≤ 10 ∧
      (msquare (fit_font_size msquare 10 10)).2 ≤ 10 :=
  fit_font_size_fits msquare 10 10 (by norm_num [msquare]) (by norm_num [msquare])

/-! ### C2 — `sector_index_from_point` (hit testing) -/

/-- The four-quadrant arctangent of a zero `y` and nonnegative `x` is `0`. -/
theorem atan2_zero_pos (x : ℝ) (hx : 0 ≤ x) : atan2 0 x = 0 := by
  unfold atan2
  exact Complex.arg_eq_zero_iff.2 ⟨hx, rfl⟩

/-- For a positive wedge count the clamped index is always in `[0, n-1]`,
whatever the angle computation produced. -/
theorem sector_range (n W H x y : ℤ) (hn : 0 < n) :
    0 ≤ sector_index_from_point n W H x y ∧ sector_index_from_point n W H x y < n := by
  unfold sector_index_from_point
  rw [if_neg (by omega)]
  dsimp only
  split_ifs <;> omega

/-- C2: `sector_index_from_point` returns `-1` exactly when `n ≤ 0`, and for
every `n ≥ 1` — any canvas size and any point, inside or outside the canvas,
center included — it returns an index in `[0, n-1]`. -/
theorem sector_index_spec (n W H x y : ℤ) :
    (sector_index_from_point n W H x y = -1 ↔ n ≤ 0) ∧
    (0 < n → 0 ≤ sector_index_from_point n W H x y ∧
      sector_index_from_point n W H x y < n) := by
  refine ⟨⟨fun h => ?_, fun h => ?_⟩, fun hn => sector_range n W H x y hn⟩
  · by_contra hn
    push_neg at hn
    have := sector_range n W H x y hn
    omega
  · unfold sector_index_from_point
    rw [if_pos h]

/-- C2 (witness): the specification at `n = 3`, canvas `300×300`, point
`(250, 150)`, with the `0 < n` hypothesis discharged. -/
theorem sector_index_spec_witness :
    (sector_index_from_point 3 300 300 250 150 = -1 ↔ (3:ℤ) ≤ 0) ∧
    (0 ≤ sector_index_from_point 3 300 300 250 150 ∧
      sector_index_from_point 3 300 300 250 150 < 3) :=
  ⟨(sector_index_spec 3 300 300 250 150).1,
   (sector_index_spec 3 300 300 250 150).2 (by decide)⟩

/-- On a `300×300` canvas with `n = 3`, the point `(250, 150)` (right of
center on the horizontal axis, angle `0`) lands in wedge `0`. -/
theorem sector3_250_150 : sector_index_from_point 3 300 300 250 150 = 0 := by
  unfold sector_index_from_point
  rw [if_neg (by norm_num)]
  dsimp only
  norm_num [atan2_zero_pos]

/-- On a `300×300` canvas with `n = 3`, the point `(400, 150)` — outside the
canvas — still lands in wedge `0` (same angle `0`, clamp keeps it valid). -/
theorem sector3_400_150 : sector_index_from_point 3 300 300 400 150 = 0 := by
  unfold sector_index_from_point
  rw [if_neg (by norm_num)]
  dsimp only
  norm_num [atan2_zero_pos]

/-! ### State-machine helper lemmas -/

/-- Once the phase is terminal the loop has exited; a later event leaves the
state untouched. -/
theorem step_terminal (cfg : Config) (s : AppState) (e : Event)
    (h : s.phase ≠ Phase.Running) : step cfg s e = s := by
  unfold step
  rw [if_pos h]

/-- Iterated form of `step_terminal`. -/
theorem steps_terminal (cfg : Config) (s : AppState) (evs : List Event)
    (h : s.phase ≠ Phase.Running) : steps cfg s evs = s := by
  induction evs with
  | nil => rfl
  | cons e es ih =>
    rw [steps, step_terminal cfg s e h]
    exact ih

/-- Unfolding of `step` on a motion event while running
(src/main.c:534-544). -/
theorem step_motion (cfg : Config) (s : AppState) (x y : ℤ)
    (h : s.phase = Phase.Running) :
    step cfg s (.MotionNotify x y) =
      if sector_index_from_point (cfg.entries.length : ℤ) s.width s.height x y ≠
          s.hover_idx then
        { s with
            hover_idx :=
              sector_index_from_point (cfg.entries.length : ℤ) s.width s.height x y,
            renders := s.renders + 1 }
      else s := by
  unfold step
  rw [if_neg (not_not_intro h)]

/-! ### C1 — primary release on a valid wedge selects it -/

/-- C1: while running, a primary-button release whose computed wedge index is
`idx` with `0 ≤ idx < n` sets the phase to `Selected idx`, appends entry
`idx`'s label followed by a newline to stdout, and clears `pressed_idx`. -/
theorem release_selects (cfg : Config) (s : AppState) (x y idx : ℤ)
    (hrun : s.phase = Phase.Running)
    (hidx : sector_index_from_point (cfg.entries.length : ℤ) s.width s.height x y = idx)
    (h0 : 0 ≤ idx) (h1 : idx < (cfg.entries.length : ℤ)) :
    (step cfg s (.ButtonRelease 1 x y)).phase = Phase.Selected idx ∧
    (step cfg s (.ButtonRelease 1 x y)).output =
      s.output ++ [cfg.entries.getD idx.toNat "" ++ "\n"] ∧
    (step cfg s (.ButtonRelease 1 x y)).pressed_idx = -1 := by
  unfold step
  rw [if_neg (not_not_intro hrun)]
  dsimp only
  rw [hidx]
  simp [h0, h1]

/-- C1 (witness): the spec's concrete session — entries
`["One","Two","Three"]`, canvas `300×300`, release at `(250,150)` — selects
wedge `0` and emits `"One"` plus a newline. -/
theorem release_selects_witness :
    (step cfg3 (init_state 300 300) (.ButtonRelease 1 250 150)).phase =
      Phase.Selected 0 ∧
    (step cfg3 (init_state 300 300) (.ButtonRelease 1 250 150)).output = ["One\n"] ∧
    (step cfg3 (init_state 300 300) (.ButtonRelease 1 250 150)).pressed_idx = -1 := by
  have h := release_selects cfg3 (init_state 300 300) 250 150 0 rfl
    (by simpa [cfg3, init_state] using sector3_250_150) (by decide) (by decide)
  simpa [cfg3, init_state] using h

/-! ### C3 — release outside the canvas -/

/-- C3 (counterexample): a primary release at `(400, 150)`, *outside* the
`300×300` canvas, does not leave the session running — the clamped index is
the valid wedge `0`, so it selects. -/
theorem release_outside_selects :
    (step cfg3 (init_state 300 300) (.ButtonRelease 1 400 150)).phase =
      Phase.Selected 0 := by
  unfold step
  rw [if_neg (not_not_intro
    (show (init_state 300 300).phase = Phase.Running from rfl))]
  dsimp only
  have h : sector_index_from_point (cfg3.entries.length : ℤ) 300 300 400 150 = 0 := by
    simpa [cfg3] using sector3_400_150
  rw [show (init_state 300 300).width = 300 from rfl,
      show (init_state 300 300).height = 300 from rfl, h]
  simp [cfg3]

/-- C3 (amended): while running with `n ≥ 1` entries, *every* primary release
— at any point, inside or outside the canvas — clears `pressed_idx`, and the
computed index is always a valid wedge, so the release selects it rather than
leaving the phase `Running`. -/
theorem release_always_selects (cfg : Config) (s : AppState) (x y : ℤ)
    (hrun : s.phase = Phase.Running) (hn : 1 ≤ (cfg.entries.length : ℤ)) :
    (step cfg s (.ButtonRelease 1 x y)).pressed_idx = -1 ∧
    (step cfg s (.ButtonRelease 1 x y)).phase =
      Phase.Selected
        (sector_index_from_point (cfg.entries.length : ℤ) s.width s.height x y) := by
  have hr := sector_range (cfg.entries.length : ℤ) s.width s.height x y (by omega)
  unfold step
  rw [if_neg (not_not_intro hrun)]
  dsimp only
  simp [hr.1, hr.2]

/-- C3 (witness): the amended theorem at the outside point `(400, 150)` of the
concrete session. -/
theorem release_always_selects_witness :
    (step cfg3 (init_state 300 300) (.ButtonRelease 1 400 150)).pressed_idx = -1 ∧
    (step cfg3 (init_state 300 300) (.ButtonRelease 1 400 150)).phase =
      Phase.Selected
        (sector_index_from_point (cfg3.entries.length : ℤ)
          (init_state 300 300).width (init_state 300 300).height 400 150) :=
  release_always_selects cfg3 (init_state 300 300) 400 150 rfl (by decide)

/-! ### C5 — cancel keys and close request -/

/-- C5: while running, pressing escape (`0xff1b`), `q` (113) or `Q` (81), or
receiving the host's window-close client message, cancels the session: the
phase becomes `Cancelled` and stays so across any further events, nothing is
ever written to stdout, and the exit status is `1` (non-zero). -/
theorem cancel_terminates (cfg : Config) (s : AppState) (e : Event) (evs : List Event)
    (hrun : s.phase = Phase.Running) (hout : s.output = [])
    (he : (∃ sym, e = Event.KeyPress sym ∧
            (sym = XK_Escape ∨ sym = 113 ∨ sym = 81)) ∨
          e = Event.ClientMessage cfg.wmProtocols cfg.wmDeleteWindow) :
    (steps cfg (step cfg s e) evs).phase = Phase.Cancelled ∧
    (steps cfg (step cfg s e) evs).output = [] ∧
    exit_code (steps cfg (step cfg s e) evs).phase = 1 := by
  have hstep : step cfg s e = { s with phase := Phase.Cancelled } := by
    rcases he with ⟨sym, rfl, hsym⟩ | rfl
    · unfold step
      rw [if_neg (not_not_intro hrun)]
      dsimp only
      rw [if_pos hsym]
    · unfold step
      rw [if_neg (not_not_intro hrun)]
      dsimp only
      rw [if_pos ⟨rfl, rfl⟩]
  rw [hstep, steps_terminal cfg _ evs (by simp)]
  simp [hout, exit_code]

/-- C5 (witness): pressing `q` in the running concrete session, with one more
(buffered) release event afterwards. -/
theorem cancel_terminates_witness :
    (steps cfg3 (step cfg3 (init_state 300 300) (Event.KeyPress 113))
        [Event.ButtonRelease 1 250 150]).phase = Phase.Cancelled ∧
    (steps cfg3 (step cfg3 (init_state 300 300) (Event.KeyPress 113))
        [Event.ButtonRelease 1 250 150]).output = [] ∧
    exit_code (steps cfg3 (step cfg3 (init_state 300 300) (Event.KeyPress 113))
        [Event.ButtonRelease 1 250 150]).phase = 1 :=
  cancel_terminates cfg3 (init_state 300 300) (Event.KeyPress 113)
    [Event.ButtonRelease 1 250 150] rfl rfl (Or.inl ⟨113, rfl, Or.inr (Or.inl rfl)⟩)

/-! ### C6 — terminal states are absorbing -/

/-- C6: once the phase is `Selected` or `Cancelled` (i.e. not `Running`), any
further event — and any further event sequence — leaves the whole state
unchanged: same phase, same output, same render count. -/
theorem terminal_absorbing (cfg : Config) (s : AppState) (e : Event)
    (evs : List Event) (h : s.phase ≠ Phase.Running) :
    step cfg s e = s ∧ steps cfg s evs = s :=
  ⟨step_terminal cfg s e h, steps_terminal cfg s evs h⟩

/-- C6 (witness): a selected session ignores a buffered release and a
key-press/expose sequence. -/
theorem terminal_absorbing_witness :
    step cfg3 { init_state 300 300 with phase := Phase.Selected 0 }
        (Event.ButtonRelease 1 250 150) =
      { init_state 300 300 with phase := Phase.Selected 0 } ∧
    steps cfg3 { init_state 300 300 with phase := Phase.Selected 0 }
        [Event.KeyPress 113, Event.Expose] =
      { init_state 300 300 with phase := Phase.Selected 0 } :=
  terminal_absorbing cfg3 _ _ _ (by simp)

/-! ### C7 — hover updates and render counts -/

/-- C7: while running, a motion event whose computed wedge index equals the
current `hover_idx` is a strict no-op (same state, no render); one whose index
differs updates `hover_idx` to it and issues exactly one render.  Consequently
a repeated motion to the same point is idempotent: the second event leaves the
state of the first unchanged. -/
theorem motion_hover_render (cfg : Config) (s : AppState) (x y : ℤ)
    (hrun : s.phase = Phase.Running) :
    (sector_index_from_point (cfg.entries.length : ℤ) s.width s.height x y =
        s.hover_idx → step cfg s (.MotionNotify x y) = s) ∧
    (sector_index_from_point (cfg.entries.length : ℤ) s.width s.height x y ≠
        s.hover_idx →
      (step cfg s (.MotionNotify x y)).hover_idx =
        sector_index_from_point (cfg.entries.length : ℤ) s.width s.height x y ∧
      (step cfg s (.MotionNotify x y)).renders = s.renders + 1) ∧
    step cfg (step cfg s (.MotionNotify x y)) (.MotionNotify x y) =
      step cfg s (.MotionNotify x y) := by
  refine ⟨fun h => ?_, fun h => ?_, ?_⟩
  · rw [step_motion cfg s x y hrun, if_neg (not_not_intro h)]
  · rw [step_motion cfg s x y hrun, if_pos h]
    exact ⟨rfl, rfl⟩
  · by_cases h : sector_index_from_point (cfg.entries.length : ℤ) s.width s.height x y =
        s.hover_idx
    · have h1 : step cfg s (.MotionNotify x y) = s := by
        rw [step_motion cfg s x y hrun, if_neg (not_not_intro h)]
      rw [h1]
      exact h1
    · have h1 : step cfg s (.MotionNotify x y) =
          { s with
              hover_idx :=
                sector_index_from_point (cfg.entries.length : ℤ) s.width s.height x y,
              renders := s.renders + 1 } := by
        rw [step_motion cfg s x y hrun, if_pos h]
      rw [h1,
        step_motion cfg
          { s with
              hover_idx :=
                sector_index_from_point (cfg.entries.length : ℤ) s.width s.height x y,
              renders := s.renders + 1 } x y hrun]
      simp

/-- C7 (witness): the theorem at the concrete running session and the point
`(10, 10)`. -/
theorem motion_hover_render_witness :
    (sector_index_from_point (cfg3.entries.length : ℤ) (init_state 300 300).width
        (init_state 300 300).height 10 10 = (init_state 300 300).hover_idx →
      step cfg3 (init_state 300 300) (.MotionNotify 10 10) = init_state 300 300) ∧
    (sector_index_from_point (cfg3.entries.length : ℤ) (init_state 300 300).width
        (init_state 300 300).height 10 10 ≠ (init_state 300 300).hover_idx →
      (step cfg3 (init_state 300 300) (.MotionNotify 10 10)).hover_idx =
        sector_index_from_point (cfg3.entries.length : ℤ) (init_state 300 300).width
          (init_state 300 300).height 10 10 ∧
      (step cfg3 (init_state 300 300) (.MotionNotify 10 10)).renders =
        (init_state 300 300).renders + 1) ∧
    step cfg3 (step cfg3 (init_state 300 300) (.MotionNotify 10 10))
        (.MotionNotify 10 10) =
      step cfg3 (init_state 300 300) (.MotionNotify 10 10) :=
  motion_hover_render cfg3 (init_state 300 300) 10 10 rfl

/-! ### C9 — non-primary buttons -/

/-- C9 (counterexample): a non-primary (`detail = 3`) button release does
*not* leave the session state unchanged: it resets `pressed_idx` (here from
`0` to `-1`). -/
theorem nonprimary_release_clears :
    (step cfg3 { init_state 300 300 with pressed_idx := 0 }
        (.ButtonRelease 3 10 10)).pressed_idx ≠
      ({ init_state 300 300 with pressed_idx := 0 } : AppState).pressed_idx := by
  unfold step
  rw [if_neg (not_not_intro
    (show ({ init_state 300 300 with pressed_idx := 0 } : AppState).phase =
      Phase.Running from rfl))]
  dsimp only
  simp [init_state]

/-- C9 (amended): while running, a non-primary button press leaves the state
entirely unchanged, and a non-primary button release leaves `hover_idx`, the
phase, the output and the render count unchanged but sets `pressed_idx` to
`-1` (the source clears it on *every* release, src/main.c:573). -/
theorem nonprimary_buttons (cfg : Config) (s : AppState) (d x y : ℤ)
    (hrun : s.phase = Phase.Running) (hd : d ≠ 1) :
    step cfg s (.ButtonPress d x y) = s ∧
    (step cfg s (.ButtonRelease d x y)).hover_idx = s.hover_idx ∧
    (step cfg s (.ButtonRelease d x y)).phase = s.phase ∧
    (step cfg s (.ButtonRelease d x y)).output = s.output ∧
    (step cfg s (.ButtonRelease d x y)).renders = s.renders ∧
    (step cfg s (.ButtonRelease d x y)).pressed_idx = -1 := by
  unfold step
  rw [if_neg (not_not_intro hrun)]
  dsimp only
  simp [hd, hrun]

/-- C9 (witness): button `3` on the concrete running session. -/
theorem nonprimary_buttons_witness :
    step cfg3 (init_state 300 300) (.ButtonPress 3 10 10) = init_state 300 300 ∧
    (step cfg3 (init_state 300 300) (.ButtonRelease 3 10 10)).hover_idx =
      (init_state 300 300).hover_idx ∧
    (step cfg3 (init_state 300 300) (.ButtonRelease 3 10 10)).phase =
      (init_state 300 300).phase ∧
    (step cfg3 (init_state 300 300) (.ButtonRelease 3 10 10)).output =
      (init_state 300 300).output ∧
    (step cfg3 (init_state 300 300) (.ButtonRelease 3 10 10)).renders =
      (init_state 300 300).renders ∧
    (step cfg3 (init_state 300 300) (.ButtonRelease 3 10 10)).pressed_idx = -1 :=
  nonprimary_buttons cfg3 (init_state 300 300) 3 10 10 rfl (by decide)

/-! ### C10 — hover index stays valid after the first motion -/

/-- One step preserves validity of `hover_idx` when there is at least one
entry. -/
theorem step_hover_range (cfg : Config) (s : AppState) (e : Event)
    (hn : 1 ≤ (cfg.entries.length : ℤ))
    (h : 0 ≤ s.hover_idx ∧ s.hover_idx < (cfg.entries.length : ℤ)) :
    0 ≤ (step cfg s e).hover_idx ∧
      (step cfg s e).hover_idx < (cfg.entries.length : ℤ) := by
  by_cases hrun : s.phase = Phase.Running
  · unfold step
    rw [if_neg (not_not_intro hrun)]
    cases e <;> dsimp only <;>
      first
        | exact h
        | (split_ifs <;> first
            | exact h
            | exact sector_range _ _ _ _ _ (by omega))
  · rw [step_terminal cfg s e hrun]
    exact h

/-- Iterated form of `step_hover_range`. -/
theorem steps_hover_range (cfg : Config) (evs : List Event)
    (hn : 1 ≤ (cfg.entries.length : ℤ)) :
    ∀ s : AppState, 0 ≤ s.hover_idx ∧ s.hover_idx < (cfg.entries.length : ℤ) →
      0 ≤ (steps cfg s evs).hover_idx ∧
        (steps cfg s evs).hover_idx < (cfg.entries.length : ℤ) := by
  induction evs with
  | nil => exact fun s h => h
  | cons e es ih =>
    intro s h
    rw [steps]
    exact ih _ (step_hover_range cfg s e hn h)

/-- C10: in a running session with `n ≥ 1` entries, after the first motion
event `hover_idx` is a valid wedge index in `[0, n-1]`, and it stays valid —
in particular never returns to `-1` — for the rest of the session. -/
theorem hover_valid_after_first_motion (cfg : Config) (s : AppState) (x y : ℤ)
    (evs : List Event) (hn : 1 ≤ (cfg.entries.length : ℤ))
    (hrun : s.phase = Phase.Running) :
    0 ≤ (steps cfg (step cfg s (.MotionNotify x y)) evs).hover_idx ∧
    (steps cfg (step cfg s (.MotionNotify x y)) evs).hover_idx <
      (cfg.entries.length : ℤ) := by
  apply steps_hover_range cfg evs hn
  have hr := sector_range (cfg.entries.length : ℤ) s.width s.height x y (by omega)
  rw [step_motion cfg s x y hrun]
  split_ifs with hne
  · exact hr
  · push_neg at hne
    rw [← hne]
    exact hr

/-- C10 (witness): the concrete session after a first motion to `(250, 150)`
followed by an expose and another motion. -/
theorem hover_valid_after_first_motion_witness :
    0 ≤ (steps cfg3 (step cfg3 (init_state 300 300) (.MotionNotify 250 150))
        [Event.Expose, Event.MotionNotify 10 10]).hover_idx ∧
    (steps cfg3 (step cfg3 (init_state 300 300) (.MotionNotify 250 150))
        [Event.Expose, Event.MotionNotify 10 10]).hover_idx <
      (cfg3.entries.length : ℤ) :=
  hover_valid_after_first_motion cfg3 (init_state 300 300) 250 150
    [Event.Expose, Event.MotionNotify 10 10] (by decide) rfl

/-! ### C8 — `distance_to_rect_edge` (ray-to-boundary distance)

`axisHits`/`edgeHits` are the spec-side description ("casts a ray … distance
to whichever of the four canvas edges it exits through first, parallel-to-edge
rays ignore that edge's intersection"): the set of positive ray parameters at
which the ray meets an edge segment, the pair of edges (near-)parallel to the
ray being ignored.  The claim is settled by comparing the source function
against this set. -/

/-- Spec-side: positive ray parameters where the ray from `(ca, cb)` with
direction `(da, db)` crosses one of the two edges perpendicular to this axis
(at axis coordinate `0` or `A`) within the cross-range `[0, B]`; ignored
entirely when the direction is (near-)parallel to those edges. -/
def axisHits (A B : ℤ) (ca cb da db : ℝ) : Set ℝ :=
  {t | 0 < t ∧ 1e-9 < |da| ∧ (ca + t * da = 0 ∨ ca + t * da = (A : ℝ)) ∧
       0 ≤ cb + t * db ∧ cb + t * db ≤ (B : ℝ)}

/-- Spec-side: all positive edge crossings of the ray from `(cx, cy)` at angle
`ang` with the boundary of the `W×H` canvas. -/
def edgeHits (W H : ℤ) (cx cy ang : ℝ) : Set ℝ :=
  axisHits W H cx cy (Real.cos ang) (Real.sin ang) ∪
    axisHits H W cy cx (Real.sin ang) (Real.cos ang)

/-- Membership in `axisHits` pinned down: when the direction is not
near-parallel, the only possible crossings are the two explicit parameters
the source computes. -/
theorem axisHits_mem (A B : ℤ) (ca cb da db t : ℝ) (hda : 1e-9 < |da|) :
    t ∈ axisHits A B ca cb da db ↔
      ((0 < (0 - ca) / da ∧ 0 ≤ cb + (0 - ca) / da * db ∧
          cb + (0 - ca) / da * db ≤ (B : ℝ)) ∧ t = (0 - ca) / da) ∨
      ((0 < ((A : ℝ) - ca) / da ∧ 0 ≤ cb + ((A : ℝ) - ca) / da * db ∧
          cb + ((A : ℝ) - ca) / da * db ≤ (B : ℝ)) ∧ t = ((A : ℝ) - ca) / da) := by
  have hda0 : da ≠ 0 := by
    intro h
    rw [h] at hda
    simp at hda
    linarith
  constructor
  · rintro ⟨ht, _, hedge, hw0, hwB⟩
    rcases hedge with h0 | hA
    · have ht1 : t = (0 - ca) / da := by
        rw [eq_div_iff hda0]
        linarith
      left
      refine ⟨⟨?_, ?_, ?_⟩, ht1⟩ <;> rw [← ht1] <;> assumption
    · have ht2 : t = ((A : ℝ) - ca) / da := by
        rw [eq_div_iff hda0]
        linarith
      right
      refine ⟨⟨?_, ?_, ?_⟩, ht2⟩ <;> rw [← ht2] <;> assumption
  · have hc1 : (0 - ca) / da * da = 0 - ca := div_mul_cancel₀ _ hda0
    have hc2 : ((A : ℝ) - ca) / da * da = (A : ℝ) - ca := div_mul_cancel₀ _ hda0
    rintro (⟨⟨hpos, hw0, hwB⟩, rfl⟩ | ⟨⟨hpos, hw0, hwB⟩, rfl⟩)
    · exact ⟨hpos, hda, Or.inl (by linarith), hw0, hwB⟩
    · exact ⟨hpos, hda, Or.inr (by linarith), hw0, hwB⟩

/-- If the axis block accepted no candidate, the spec set for that axis is
empty. -/
theorem axisCand_none (A B : ℤ) (ca cb da db : ℝ)
    (h : axisCand A B ca cb da db = none) : axisHits A B ca cb da db = ∅ := by
  unfold axisCand at h
  by_cases hda : 1e-9 < |da|
  · rw [if_pos hda] at h
    dsimp only at h
    by_cases hco2 : 0 < ((A : ℝ) - ca) / da ∧ 0 ≤ cb + ((A : ℝ) - ca) / da * db ∧
        cb + ((A : ℝ) - ca) / da * db ≤ (B : ℝ)
    · rw [if_pos hco2] at h
      exact absurd h (by simp)
    rw [if_neg hco2] at h
    by_cases hco1 : 0 < (0 - ca) / da ∧ 0 ≤ cb + (0 - ca) / da * db ∧
        cb + (0 - ca) / da * db ≤ (B : ℝ)
    · rw [if_pos hco1] at h
      exact absurd h (by simp)
    ext t
    simp only [Set.mem_empty_iff_false, iff_false]
    intro hmem
    rcases (axisHits_mem A B ca cb da db t hda).1 hmem with ⟨hc, _⟩ | ⟨hc, _⟩
    · exact hco1 hc
    · exact hco2 hc
  · ext t
    simp only [Set.mem_empty_iff_false, iff_false]
    intro hmem
    exact hda hmem.2.1

/-- If the axis block accepted a candidate `v`, then `v` is a genuine crossing
for that axis and is the least one. -/
theorem axisCand_some (A B : ℤ) (ca cb da db v : ℝ)
    (h : axisCand A B ca cb da db = some v) :
    v ∈ axisHits A B ca cb da db ∧ ∀ t ∈ axisHits A B ca cb da db, v ≤ t := by
  unfold axisCand at h
  by_cases hda : 1e-9 < |da|
  case neg =>
    rw [if_neg hda] at h
    exact absurd h (by simp)
  rw [if_pos hda] at h
  dsimp only at h
  by_cases hco2 : 0 < ((A : ℝ) - ca) / da ∧ 0 ≤ cb + ((A : ℝ) - ca) / da * db ∧
      cb + ((A : ℝ) - ca) / da * db ≤ (B : ℝ)
  · rw [if_pos hco2] at h
    by_cases hco1 : 0 < (0 - ca) / da ∧ 0 ≤ cb + (0 - ca) / da * db ∧
        cb + (0 - ca) / da * db ≤ (B : ℝ)
    · rw [if_pos hco1] at h
      unfold fminO at h
      have hv : v = min ((0 - ca) / da) (((A : ℝ) - ca) / da) := by
        injection h with h
        exact h.symm
      subst hv
      constructor
      · rcases min_choice ((0 - ca) / da) (((A : ℝ) - ca) / da) with hm | hm <;>
          rw [hm] <;> rw [axisHits_mem A B ca cb da db _ hda]
        · exact Or.inl ⟨hco1, rfl⟩
        · exact Or.inr ⟨hco2, rfl⟩
      · intro t ht
        rcases (axisHits_mem A B ca cb da db t hda).1 ht with ⟨_, rfl⟩ | ⟨_, rfl⟩
        · exact min_le_left _ _
        · exact min_le_right _ _
    · rw [if_neg hco1] at h
      unfold fminO at h
      have hv : v = ((A : ℝ) - ca) / da := by
        injection h with h
        exact h.symm
      subst hv
      constructor
      · exact (axisHits_mem A B ca cb da db _ hda).2 (Or.inr ⟨hco2, rfl⟩)
      · intro t ht
        rcases (axisHits_mem A B ca cb da db t hda).1 ht with ⟨hc, rfl⟩ | ⟨_, rfl⟩
        · exact absurd hc hco1
        · exact le_refl _
  · rw [if_neg hco2] at h
    by_cases hco1 : 0 < (0 - ca) / da ∧ 0 ≤ cb + (0 - ca) / da * db ∧
        cb + (0 - ca) / da * db ≤ (B : ℝ)
    · rw [if_pos hco1] at h
      have hv : v = (0 - ca) / da := by
        injection h with h
        exact h.symm
      subst hv
      constructor
      · exact (axisHits_mem A B ca cb da db _ hda).2 (Or.inl ⟨hco1, rfl⟩)
      · intro t ht
        rcases (axisHits_mem A B ca cb da db t hda).1 ht with ⟨_, rfl⟩ | ⟨hc, rfl⟩
        · exact le_refl _
        · exact absurd hc hco2
    · rw [if_neg hco1] at h
      exact absurd h (by simp)

/-- `ominO` returns `none` only when both inputs are `none`. -/
theorem ominO_none (a b : Option ℝ) (h : ominO a b = none) :
    a = none ∧ b = none := by
  cases a <;> cases b <;> simp_all [ominO]

/-- The value of `ominO` comes from one of its inputs and is a lower bound of
both. -/
theorem ominO_some (a b : Option ℝ) (v : ℝ) (h : ominO a b = some v) :
    (a = some v ∨ b = some v) ∧
    (∀ u, a = some u → v ≤ u) ∧ ∀ u, b = some u → v ≤ u := by
  cases a with
  | none =>
    cases b with
    | none => simp [ominO] at h
    | some bv =>
      simp only [ominO, Option.some.injEq] at h
      subst h
      refine ⟨Or.inr rfl, fun u hu => by simp at hu, fun u hu => ?_⟩
      injection hu with hu
      rw [hu]
  | some av =>
    cases b with
    | none =>
      simp only [ominO, Option.some.injEq] at h
      subst h
      refine ⟨Or.inl rfl, fun u hu => ?_, fun u hu => by simp at hu⟩
      injection hu with hu
      rw [hu]
    | some bv =>
      simp only [ominO, Option.some.injEq] at h
      subst h
      refine ⟨?_, fun u hu => ?_, fun u hu => ?_⟩
      · rcases min_choice av bv with hm | hm
        · exact Or.inl (by rw [hm])
        · exact Or.inr (by rw [hm])
      · injection hu with hu
        rw [← hu]
        exact min_le_left _ _
      · injection hu with hu
        rw [← hu]
        exact min_le_right _ _

/-- C8: `distance_to_rect_edge` is always nonnegative; it returns `0` when the
ray has no accepted positive edge crossing; and when crossings exist it
returns one of them, namely the first (least) one. -/
theorem distance_to_rect_edge_spec (W H : ℤ) (cx cy ang : ℝ) :
    0 ≤ distance_to_rect_edge W H cx cy ang ∧
    (edgeHits W H cx cy ang = ∅ → distance_to_rect_edge W H cx cy ang = 0) ∧
    ∀ t ∈ edgeHits W H cx cy ang,
      distance_to_rect_edge W H cx cy ang ∈ edgeHits W H cx cy ang ∧
      distance_to_rect_edge W H cx cy ang ≤ t := by
  unfold distance_to_rect_edge
  dsimp only
  rcases homin : ominO (axisCand W H cx cy (Real.cos ang) (Real.sin ang))
      (axisCand H W cy cx (Real.sin ang) (Real.cos ang)) with _ | v
  · dsimp only
    obtain ⟨ha, hb⟩ := ominO_none _ _ homin
    have hempty : edgeHits W H cx cy ang = ∅ := by
      unfold edgeHits
      rw [axisCand_none _ _ _ _ _ _ ha, axisCand_none _ _ _ _ _ _ hb]
      simp
    refine ⟨le_refl 0, fun _ => rfl, fun t ht => ?_⟩
    rw [hempty] at ht
    exact absurd ht (Set.not_mem_empty t)
  · dsimp only
    obtain ⟨hsrc, hla, hlb⟩ := ominO_some _ _ v homin
    have hv_mem : v ∈ edgeHits W H cx cy ang := by
      unfold edgeHits
      rcases hsrc with ha | hb
      · exact Set.mem_union_left _ (axisCand_some _ _ _ _ _ _ _ ha).1
      · exact Set.mem_union_right _ (axisCand_some _ _ _ _ _ _ _ hb).1
    have hv_pos : 0 < v := by
      unfold edgeHits at hv_mem
      rcases hv_mem with hm | hm <;> exact hm.1
    rw [if_neg (not_le.2 hv_pos)]
    refine ⟨le_of_lt hv_pos, fun hemp => ?_, fun t ht => ⟨hv_mem, ?_⟩⟩
    · rw [hemp] at hv_mem
      exact absurd hv_mem (Set.not_mem_empty v)
    · unfold edgeHits at ht
      rcases ht with ht | ht
      · rcases hca : axisCand W H cx cy (Real.cos ang) (Real.sin ang) with _ | u
        · rw [axisCand_none _ _ _ _ _ _ hca] at ht
          exact absurd ht (Set.not_mem_empty t)
        · exact le_trans (hla u hca) ((axisCand_some _ _ _ _ _ _ _ hca).2 t ht)
      · rcases hcb : axisCand H W cy cx (Real.sin ang) (Real.cos ang) with _ | u
        · rw [axisCand_none _ _ _ _ _ _ hcb] at ht
          exact absurd ht (Set.not_mem_empty t)
        · exact le_trans (hlb u hcb) ((axisCand_some _ _ _ _ _ _ _ hcb).2 t ht)

/-- The ray from the center of a `100×100` canvas at angle `0` crosses the
right edge at parameter `50`. -/
theorem hit50 : (50 : ℝ) ∈ edgeHits 100 100 50 50 0 := by
  unfold edgeHits axisHits
  left
  refine ⟨by norm_num, by norm_num, Or.inr (by norm_num), by norm_num, by norm_num⟩

/-- C8 (witness): on the `100×100` canvas from its center at angle `0`, the
returned distance is nonnegative, is itself a crossing, and is at most the
crossing at `50`. -/
theorem distance_to_rect_edge_spec_witness :
    0 ≤ distance_to_rect_edge 100 100 50 50 0 ∧
    distance_to_rect_edge 100 100 50 50 0 ∈ edgeHits 100 100 50 50 0 ∧
    distance_to_rect_edge 100 100 50 50 0 ≤ 50 :=
  ⟨(distance_to_rect_edge_spec 100 100 50 50 0).1,
   (distance_to_rect_edge_spec 100 100 50 50 0).2.2 50 hit50⟩

end Piewin
